import Mathlib

/-!
# dvrescue GUI bootstrap (`Source/GUI/dvrescue/dvrescue/main.cpp`)

A shallow embedding of `main`: the process state it touches (the `PATH`
environment variable, the persisted settings store, the logging object) is
threaded explicitly, and every statement of `main` appends one `Step` to a
trace, so that ordering properties can be stated about the run.

The Qt classes `main` calls (`QDir`, `QSettings`, `QCommandLineParser`,
`QUrl`, `QCoreApplication::exit`) are modelled after their documented
behaviour, restricted to the calls `main` makes.
-/

namespace DvRescue

/-! ## Platform and `QDir` -/

/-- The compile-time platform: `Q_OS_WIN`, `Q_OS_MAC`, or neither. -/
inductive Platform where
  | windows
  | mac
  | other
deriving DecidableEq, Repr

/-- The native separator Qt converts `/` to on Windows (a backslash). -/
def nativeSeparator : Char := Char.ofNat 92

/-- Qt `QDir::toNativeSeparators`: on Windows every `/` becomes a backslash,
on every other platform the path is returned as it is. -/
def toNativeSeparators (platform : Platform) (pathName : String) : String :=
  match platform with
  | .windows => String.mk (pathName.data.map fun c => if c = '/' then nativeSeparator else c)
  | _ => pathName

/-! ## Settings store -/

/-- Qt `QSettings`, as far as `main` uses it: a finite store of key and value
pairs (values are kept as text). -/
structure QSettings where
  entries : List (String × String)
deriving DecidableEq, Repr

namespace QSettings

/-- Qt `QSettings::allKeys`: every key of the store, sub-keys included. -/
def allKeys (s : QSettings) : List String :=
  s.entries.map Prod.fst

/-- Whether `entryKey` is `key` itself or a sub-setting `key/...` of it. -/
def isKeyOrChild (key entryKey : String) : Bool :=
  entryKey == key || (key.data ++ ['/']).isPrefixOf entryKey.data

/-- Qt `QSettings::remove`: removes the setting `key` and any sub-settings of
`key`; an empty key clears the store (no group is open in `main`). -/
def remove (s : QSettings) (key : String) : QSettings :=
  if key.isEmpty then { entries := [] }
  else { entries := s.entries.filter fun e => !isKeyOrChild key e.1 }

end QSettings

/-! ## Logging facility -/

/-- The two modes of the logging facility. -/
inductive LogMode where
  | consoleOnly
  | fileEnabled
deriving DecidableEq, Repr

/-- Modelled from the spec: the class `Logging` of `logging.h`, which is not
among the source files. The spec gives it two modes, console-only and
console plus file, "Default mode is console-only; switched to file-enabled
only if requested". -/
structure Logging where
  mode : LogMode
deriving DecidableEq, Repr

namespace Logging

/-- Modelled from the spec: the constructor of `Logging`, which is not among
the source files; a fresh logging facility is console-only. -/
def create : Logging := { mode := .consoleOnly }

/-- Modelled from the spec: `Logging::enable`, which is not among the source
files; it switches the facility to file-enabled mode. -/
def enable (_l : Logging) : Logging := { mode := .fileEnabled }

end Logging

/-! ## Command-line parser -/

/-- Qt `QCommandLineOption` built by the constructor `main` uses: a list of
names and a description. No value name is given, so the option takes no
value. -/
structure QCommandLineOption where
  names : List String
  description : String
deriving DecidableEq, Repr

/-- Qt `QCommandLineParser` with its private state: the options added, and
what the last parse found. -/
structure QCommandLineParser where
  applicationDescription : String
  commandLineOptionList : List QCommandLineOption
  optionNames : List String
  unknownOptionNames : List String
  positionalArgumentList : List String
deriving DecidableEq, Repr

namespace QCommandLineParser

/-- A freshly constructed parser: no description, no option, nothing parsed. -/
def create : QCommandLineParser :=
  { applicationDescription := "", commandLineOptionList := [], optionNames := [],
    unknownOptionNames := [], positionalArgumentList := [] }

/-- Qt `QCommandLineParser::setApplicationDescription`. -/
def setApplicationDescription (d : QCommandLineParser) (description : String) :
    QCommandLineParser :=
  { d with applicationDescription := description }

/-- The keys of the private `nameHash`: every name of every option added. -/
def nameHash (d : QCommandLineParser) : List String :=
  d.commandLineOptionList.flatMap fun o => o.names

/-- Qt `QCommandLineParser::addOption`: the option is added unless it has no
name or one of its names is already taken. -/
def addOption (d : QCommandLineParser) (option : QCommandLineOption) : QCommandLineParser :=
  if option.names.isEmpty || option.names.any (fun n => d.nameHash.contains n) then d
  else { d with commandLineOptionList := d.commandLineOptionList ++ [option] }

/-- Qt `QCommandLineParserPrivate::registerFoundOption`: a defined name is
recorded as found, any other as unknown. -/
def registerFoundOption (d : QCommandLineParser) (optionName : String) :
    Bool × QCommandLineParser :=
  if d.nameHash.contains optionName then
    (true, { d with optionNames := d.optionNames ++ [optionName] })
  else
    (false, { d with unknownOptionNames := d.unknownOptionNames ++ [optionName] })

/-- Qt `QCommandLineParserPrivate::parseOptionValue` for options without a
value: a defined option followed by `=` in its argument is an error
("Unexpected value after ..."). -/
def parseOptionValue (d : QCommandLineParser) (optionName argument : String) : Bool :=
  if d.nameHash.contains optionName then !argument.data.contains '=' else true

/-- The loop over the characters of a single-dash argument in Qt's default
`ParseAsCompactedShortOptions` mode: each character is one short option; the
loop stops at a defined option followed by `=`, and the last option looked at
is then checked by `parseOptionValue`. Returns the error flag and the parser. -/
def parseCompacted (argument : String) :
    List Char → String → Bool → QCommandLineParser → Bool × QCommandLineParser
  | [], optionName, error, d => (error || !d.parseOptionValue optionName argument, d)
  | c :: rest, _, error, d =>
    let optionName := String.singleton c
    match d.registerFoundOption optionName with
    | (false, d1) => parseCompacted argument rest optionName true d1
    | (true, d1) =>
      if rest.head? = some '=' then
        (error || !d1.parseOptionValue optionName argument, d1)
      else parseCompacted argument rest optionName error d1

/-- The body of the loop of Qt `QCommandLineParserPrivate::parse` over the
arguments after the executable name, with the flags `forcePositional` and
`error` it carries. -/
def parseLoop : List String → Bool → Bool → QCommandLineParser → Bool × QCommandLineParser
  | [], _, error, d => (error, d)
  | argument :: rest, true, error, d =>
    parseLoop rest true error
      { d with positionalArgumentList := d.positionalArgumentList ++ [argument] }
  | argument :: rest, false, error, d =>
    match argument.data with
    | ['-', '-'] => parseLoop rest true error d
    | '-' :: '-' :: body =>
      let optionName := String.mk (body.takeWhile fun c => c != '=')
      match d.registerFoundOption optionName with
      | (true, d1) =>
        parseLoop rest false (error || !d1.parseOptionValue optionName argument) d1
      | (false, d1) => parseLoop rest false true d1
    | ['-'] =>
      parseLoop rest false error
        { d with positionalArgumentList := d.positionalArgumentList ++ [argument] }
    | '-' :: body =>
      match parseCompacted argument body "" error d with
      | (error1, d1) => parseLoop rest false error1 d1
    | _ =>
      parseLoop rest false error
        { d with positionalArgumentList := d.positionalArgumentList ++ [argument] }

/-- Qt `QCommandLineParserPrivate::parse`: clears the previous results, skips
the executable name and parses the rest; the flag is `true` on success. An
empty argument list is refused. -/
def parse (d : QCommandLineParser) (args : List String) : Bool × QCommandLineParser :=
  let d0 := { d with optionNames := [], unknownOptionNames := [], positionalArgumentList := [] }
  match args with
  | [] => (false, d0)
  | _ :: rest =>
    match parseLoop rest false false d0 with
    | (error, d1) => (!error, d1)

/-- Qt `QCommandLineParser::process`: on a parse error the message is printed
and the process exits with `EXIT_FAILURE`; `none` stands for that exit.
Neither the help nor the version option is added by `main`. -/
def process (d : QCommandLineParser) (arguments : List String) : Option QCommandLineParser :=
  match d.parse arguments with
  | (true, d1) => some d1
  | (false, _) => none

/-- Qt `QCommandLineParserPrivate::aliases`: all names of the option that
`optionName` belongs to. -/
def aliases (d : QCommandLineParser) (optionName : String) : List String :=
  match d.commandLineOptionList.find? fun o => o.names.contains optionName with
  | some o => o.names
  | none => []

/-- Qt `QCommandLineParser::isSet(const QString &)`: the name, or one of its
aliases, was found by the last parse. -/
def isSetName (d : QCommandLineParser) (name : String) : Bool :=
  d.optionNames.contains name || d.optionNames.any fun n => (d.aliases name).contains n

/-- Qt `QCommandLineParser::isSet(const QCommandLineOption &)`. -/
def isSet (d : QCommandLineParser) (option : QCommandLineOption) : Bool :=
  match option.names with
  | [] => false
  | first :: _ => d.isSetName first

end QCommandLineParser

/-! ## The run of `main` -/

/-- Qt `QUrl`, kept as its text; two URLs are equal when their texts are. -/
structure QUrl where
  text : String
deriving DecidableEq, Repr

/-- One statement of `main`, as recorded in the trace of a run. The native
type of a registration (the template argument) is recorded by its C++ name. -/
inductive Step where
  | setAttribute (flag : String)
  | qmlRegisterType (native uri : String) (versionMajor versionMinor : Nat) (qmlName : String)
  | qRegisterMetaType (type : String)
  | constructLogging
  | constructApplication
  | qDebug (items : List String)
  | qputenv (name value : String)
  | setOrganizationName (name : String)
  | setOrganizationDomain (name : String)
  | setApplicationName (name : String)
  | parserProcess (arguments : List String)
  | settingsRemove (key : String)
  | loggingEnable
  | setStyle (style : String)
  | qmlRegisterSingletonType (native uri : String) (versionMajor versionMinor : Nat)
      (qmlName : String) (constructs : String)
  | constructEngine
  | dataModelSetEngine
  | connectObjectCreated (url : QUrl)
  | engineLoad (url : QUrl)
  | appExec
deriving DecidableEq, Repr

/-- The process state `main` reads and writes: the `PATH` environment
variable (`none` when unset), the persisted settings store, the local
`logging` object once it is constructed, and the trace of statements run. -/
structure Process where
  envPATH : Option String
  settings : QSettings
  logging : Option Logging
  trace : List Step
deriving DecidableEq, Repr

namespace Process

/-- The process as `main` is entered. -/
def start (envPATH : Option String) (settings : QSettings) : Process :=
  { envPATH := envPATH, settings := settings, logging := none, trace := [] }

/-- Records one statement in the trace. -/
def emit (p : Process) (s : Step) : Process :=
  { p with trace := p.trace ++ [s] }

/-- The declaration `Logging logging;`. -/
def constructLogging (p : Process) : Process :=
  { p with logging := some Logging.create, trace := p.trace ++ [.constructLogging] }

/-- The call `logging.enable()`. -/
def loggingEnable (p : Process) : Process :=
  { p with logging := p.logging.map Logging.enable, trace := p.trace ++ [.loggingEnable] }

/-- Qt `QProcessEnvironment::systemEnvironment().value("PATH")`: the value of
`PATH`, or the empty string when it is unset. -/
def valuePATH (p : Process) : String :=
  p.envPATH.getD ""

/-- Qt `qputenv("PATH", value)`. -/
def qputenvPATH (p : Process) (value : String) : Process :=
  { p with envPATH := some value, trace := p.trace ++ [.qputenv "PATH" value] }

/-- The call `settings.remove(key)` on the default-constructed `QSettings`. -/
def settingsRemove (p : Process) (key : String) : Process :=
  { p with settings := p.settings.remove key, trace := p.trace ++ [.settingsRemove key] }

end Process

/-- Lines 25 to 41: the high-DPI attribute and the fifteen
`qmlRegisterType` calls. -/
def registerTypes (p : Process) : Process :=
  let p := p.emit (.setAttribute "Qt::AA_EnableHighDpiScaling")
  let p := p.emit (.qmlRegisterType "Launcher" "Launcher" 0 1 "Launcher")
  let p := p.emit (.qmlRegisterType "Thread" "Thread" 0 1 "Thread")
  let p := p.emit (.qmlRegisterType "FileWriter" "FileWriter" 0 1 "FileWriter")
  let p := p.emit (.qmlRegisterType "DataModel" "DataModel" 1 0 "DataModel")
  let p := p.emit (.qmlRegisterType "MediaInfo" "MediaInfo" 1 0 "MediaInfo")
  let p := p.emit (.qmlRegisterType "MediaPlayer" "MediaPlayer" 1 0 "MediaPlayer")
  let p := p.emit (.qmlRegisterType "BufferSequential" "MediaPlayerBuffer" 1 0 "MediaPlayerBuffer")
  let p := p.emit (.qmlRegisterType "QwtQuick2Plot" "QwtQuick2" 1 0 "QwtQuick2Plot")
  let p := p.emit (.qmlRegisterType "QwtQuick2PlotCurve" "QwtQuick2" 1 0 "QwtQuick2PlotCurve")
  let p := p.emit (.qmlRegisterType "QwtQuick2PlotGrid" "QwtQuick2" 1 0 "QwtQuick2PlotGrid")
  let p := p.emit (.qmlRegisterType "QwtQuick2PlotPicker" "QwtQuick2" 1 0 "QwtQuick2PlotPicker")
  let p := p.emit (.qmlRegisterType "QwtQuick2PlotLegend" "QwtQuick2" 1 0 "QwtQuick2PlotLegend")
  let p := p.emit (.qmlRegisterType "SortFilterTableModel" "SortFilterTableModel" 1 0
    "SortFilterTableModel")
  let p := p.emit (.qmlRegisterType "QQmlTableModel" "TableModel" 1 0 "TableModel")
  let p := p.emit (.qmlRegisterType "QQmlTableModelColumn" "TableModelColumn" 1 0
    "TableModelColumn")
  p

/-- Lines 43 to 52: the six `qRegisterMetaType` calls, the logging object and
the application object. -/
def registerMetaTypes (p : Process) : Process :=
  let p := p.emit (.qRegisterMetaType "MarkerInfo")
  let p := p.emit (.qRegisterMetaType "QList<MarkerInfo>")
  let p := p.emit (.qRegisterMetaType "QAbstractTableModel*")
  let p := p.emit (.qRegisterMetaType "QProcess::ProcessState")
  let p := p.emit (.qRegisterMetaType "QProcess::ExitStatus")
  let p := p.emit (.qRegisterMetaType "QProcess::ProcessError")
  let p := p.constructLogging
  let p := p.emit .constructApplication
  p

/-- Lines 54 to 73: the platform-conditional block that prepends the
application's tool directories to `PATH`. -/
def augmentPath (platform : Platform) (applicationDirPath : String) (p : Process) : Process :=
  match platform with
  | .windows =>
    let appDirPath := applicationDirPath
    let p := p.emit (.qDebug ["appDirPath: ", appDirPath])
    let paths := p.valuePATH
    let additionalPath :=
      toNativeSeparators .windows (appDirPath ++ "/" ++ "cygwin/bin") ++ ";" ++
      toNativeSeparators .windows (appDirPath ++ "/" ++ "scripts") ++ ";" ++
      toNativeSeparators .windows (appDirPath ++ "/" ++ "tools") ++ ";" ++
      toNativeSeparators .windows appDirPath ++ ";"
    let paths := additionalPath ++ paths
    p.qputenvPATH paths
  | .mac =>
    let appDirPath := applicationDirPath
    let p := p.emit (.qDebug ["appDirPath: ", appDirPath])
    let paths := p.valuePATH
    let additionalPath := toNativeSeparators .mac (appDirPath ++ "/" ++ "../Helpers") ++ ":"
    let paths := additionalPath ++ paths
    p.qputenvPATH paths
  | .other => p

/-- Lines 75 to 77: the identity the settings store is filed under. -/
def setIdentity (p : Process) : Process :=
  let p := p.emit (.setOrganizationName "dvrescue")
  let p := p.emit (.setOrganizationDomain "dvrescue.com")
  let p := p.emit (.setApplicationName "dvrescue")
  p

/-- The option built at line 82. -/
def resetSettingsOption : QCommandLineOption :=
  { names := ["r", "resetsettings"], description := "reset application settings" }

/-- The option built at line 85. -/
def enableLoggingOption : QCommandLineOption :=
  { names := ["l", "log"], description := "enable file logging" }

/-- Lines 79 to 86: the parser with its description and two options. -/
def parser : QCommandLineParser :=
  let parser := QCommandLineParser.create
  let parser := parser.setApplicationDescription "dvrescue: GUI"
  let parser := parser.addOption resetSettingsOption
  let parser := parser.addOption enableLoggingOption
  parser

/-- How a run ends, or where it stands: exited inside `parser.process` with
`EXIT_FAILURE`, or still running; each with the process state reached. -/
inductive Outcome where
  | exitFailure (p : Process)
  | running (p : Process)
deriving DecidableEq, Repr

/-- The state of the process at the end of the run. -/
def Outcome.process : Outcome → Process
  | .exitFailure p => p
  | .running p => p

/-- Lines 88 to 100: `parser.process`, which exits the process when it
rejects the arguments, then the two flag blocks. -/
def handleFlags (arguments : List String) (p : Process) : Outcome :=
  let p := p.emit (.parserProcess arguments)
  match parser.process arguments with
  | none => .exitFailure p
  | some parsed =>
    let p :=
      if parsed.isSet resetSettingsOption then
        let p := p.emit (.qDebug ["resetting settings..."])
        let allKeys := p.settings.allKeys
        allKeys.foldl (fun p key => p.settingsRemove key) p
      else p
    let p :=
      if parsed.isSet enableLoggingOption then
        let p := p.emit (.qDebug ["enable file logging..."])
        p.loggingEnable
      else p
    .running p

/-- Lines 102 to 143: the debug line, the style, and the five
`qmlRegisterSingletonType` calls. The last field of a singleton step is the
class the factory lambda constructs with `new`. -/
def registerSingletons (p : Process) : Process :=
  let p := p.emit (.qDebug ["PATH: ", p.valuePATH])
  let p := p.emit (.setStyle "Material")
  let p := p.emit (.qmlRegisterSingletonType "Clipboard" "Clipboard" 1 0 "Clipboard" "Clipboard")
  let p := p.emit (.qmlRegisterSingletonType "ConnectionUtils" "ConnectionUtils" 1 0
    "ConnectionUtils" "ConnectionUtils")
  let p := p.emit (.qmlRegisterSingletonType "FileUtils" "FileUtils" 1 0 "FileUtils" "FileUtils")
  let p := p.emit (.qmlRegisterSingletonType "FileUtils" "SettingsUtils" 1 0 "SettingsUtils"
    "SettingsUtils")
  let p := p.emit (.qmlRegisterSingletonType "QtAVPlayerUtils" "QtAVPlayerUtils" 1 0
    "QtAVPlayerUtils" "QtAVPlayerUtils")
  p

/-- The URL built at line 148. -/
def mainQmlUrl : QUrl := { text := "qrc:/main.qml" }

/-- Lines 145 to 156: the engine, the failure callback, the load of the UI
description and the entry into the event loop. -/
def loadUi (p : Process) : Process :=
  let p := p.emit .constructEngine
  let p := p.emit .dataModelSetEngine
  let url := mainQmlUrl
  let p := p.emit (.connectObjectCreated url)
  let p := p.emit (.engineLoad url)
  let p := p.emit .appExec
  p

/-- The state of the run when the two flag blocks are done (line 100), or at
the exit inside `parser.process`. -/
def mainThroughFlags (platform : Platform) (applicationDirPath : String)
    (arguments : List String) (envPATH : Option String) (settings : QSettings) : Outcome :=
  let p := Process.start envPATH settings
  let p := registerTypes p
  let p := registerMetaTypes p
  let p := augmentPath platform applicationDirPath p
  let p := setIdentity p
  handleFlags arguments p

/-- The function `main`, for the platform it is compiled for, the directory
of the executable, the arguments `app.arguments()` returns, and the `PATH`
and the settings store the process starts with. -/
def main (platform : Platform) (applicationDirPath : String) (arguments : List String)
    (envPATH : Option String) (settings : QSettings) : Outcome :=
  match mainThroughFlags platform applicationDirPath arguments envPATH settings with
  | .exitFailure p => .exitFailure p
  | .running p =>
    let p := registerSingletons p
    let p := loadUi p
    .running p

/-! ## The failure callback -/

/-- Qt `QCoreApplication`, as far as the callback uses it: the return codes
passed to `QCoreApplication::exit` so far. -/
structure QCoreApplication where
  exitCalls : List Int
deriving DecidableEq, Repr

/-- Qt `QCoreApplication::exit(returnCode)`: asks the event loop to leave with
the given code. -/
def QCoreApplication.exit (app : QCoreApplication) (returnCode : Int) : QCoreApplication :=
  { exitCalls := app.exitCalls ++ [returnCode] }

/-- A `QObject *`: `none` is the null pointer, `some name` an object. -/
abbrev QObjectPtr := Option String

/-- The lambda connected to `objectCreated` at lines 150 to 153, with the
`url` it captures. -/
def objectCreatedCallback (url : QUrl) (obj : QObjectPtr) (objUrl : QUrl)
    (app : QCoreApplication) : QCoreApplication :=
  if obj.isNone && url == objUrl then app.exit (-1) else app

/-! ## Flags on the command line -/

/-- Whether one argument spells an option with the given names, in one of the
two ways a command line can: the long form `--name`, or a letter of a
single-dash group such as `-l` or `-rl` (Qt's default for short options). -/
def spellsOption (names : List String) (argument : String) : Bool :=
  match argument.data with
  | '-' :: '-' :: body => names.contains (String.mk body)
  | '-' :: body => body.any fun c => names.contains (String.singleton c)
  | _ => false

/-- The arguments that can be options: those after the executable name and
before the first `--`, which ends the options; what follows it is positional
whatever it looks like. -/
def optionArguments (arguments : List String) : List String :=
  (arguments.drop 1).takeWhile fun a => a != "--"

/-- The argument vector contains the flag: one of its option arguments
spells it. For the reset option that is `-r` or `--resetsettings`, for the
logging option `-l` or `--log`, alone or inside a group such as `-rl`. -/
def containsFlag (option : QCommandLineOption) (arguments : List String) : Bool :=
  (optionArguments arguments).any (spellsOption option.names)

/-- Whether one argument holds an option the parser does not know: a long
form `--name` or `--name=value` whose name is not defined, or a single-dash
group with a letter that is not defined. -/
def unrecognizedIn (known : List String) (argument : String) : Bool :=
  match argument.data with
  | '-' :: '-' :: body => !known.contains (String.mk (body.takeWhile fun c => c != '='))
  | '-' :: body => body.any fun c => !known.contains (String.singleton c)
  | _ => false

/-- The argument vector contains an unrecognized flag: one of its option
arguments holds an option that `main` never added to its parser. -/
def containsUnrecognizedFlag (arguments : List String) : Bool :=
  (optionArguments arguments).any (unrecognizedIn parser.nameHash)

/-! ## Reading the trace -/

namespace Step

/-- A `qmlRegisterType` step. -/
def isTypeRegistration : Step → Bool
  | .qmlRegisterType _ _ _ _ _ => true
  | _ => false

/-- A `qmlRegisterSingletonType` step. -/
def isSingletonRegistration : Step → Bool
  | .qmlRegisterSingletonType _ _ _ _ _ _ => true
  | _ => false

/-- A capability registration of either kind. -/
def isRegistration (s : Step) : Bool :=
  s.isTypeRegistration || s.isSingletonRegistration

/-- A write to an environment variable. -/
def isPutenv : Step → Bool
  | .qputenv _ _ => true
  | _ => false

/-- A load of a UI description. -/
def isEngineLoad : Step → Bool
  | .engineLoad _ => true
  | _ => false

/-- A call of `logging.enable()`. -/
def isLoggingEnable : Step → Bool
  | .loggingEnable => true
  | _ => false

/-- A call of `settings.remove`. -/
def isSettingsRemove : Step → Bool
  | .settingsRemove _ => true
  | _ => false

end Step

/-- The identity a capability is exposed to the UI layer under: namespace
(module URI), major and minor version, exposed name. -/
structure Capability where
  uri : String
  versionMajor : Nat
  versionMinor : Nat
  qmlName : String
deriving DecidableEq, Repr

/-- The capability a step registers, if it is a registration. -/
def Step.capability : Step → Option Capability
  | .qmlRegisterType _ uri major minor qmlName => some ⟨uri, major, minor, qmlName⟩
  | .qmlRegisterSingletonType _ uri major minor qmlName _ => some ⟨uri, major, minor, qmlName⟩
  | _ => none

/-- The capabilities registered by a run, in the order of registration. -/
def registeredCapabilities (trace : List Step) : List Capability :=
  trace.filterMap Step.capability

/-- For each singleton registration of a run: the exposed name, the native
type it is declared under (the template argument) and the class its factory
constructs. -/
def singletonRegistrations (trace : List Step) : List (String × String × String) :=
  trace.filterMap fun s =>
    match s with
    | .qmlRegisterSingletonType native _ _ _ qmlName constructs =>
      some (qmlName, native, constructs)
    | _ => none

/-- The capability surface as the spec lists it in "Registered capability
surface exposed to the UI layer", each entry under the identity `main` gives
that capability: data model, media player, playback buffer, the five plotting
primitives, sortable/filterable table model, generic table model and column
at 1.0; launcher, thread wrapper and file writer at 0.1; the five singleton
utilities at 1.0. -/
def specCapabilitySurface : List Capability :=
  [ ⟨"DataModel", 1, 0, "DataModel"⟩,
    ⟨"MediaPlayer", 1, 0, "MediaPlayer"⟩,
    ⟨"MediaPlayerBuffer", 1, 0, "MediaPlayerBuffer"⟩,
    ⟨"QwtQuick2", 1, 0, "QwtQuick2Plot"⟩,
    ⟨"QwtQuick2", 1, 0, "QwtQuick2PlotCurve"⟩,
    ⟨"QwtQuick2", 1, 0, "QwtQuick2PlotGrid"⟩,
    ⟨"QwtQuick2", 1, 0, "QwtQuick2PlotPicker"⟩,
    ⟨"QwtQuick2", 1, 0, "QwtQuick2PlotLegend"⟩,
    ⟨"SortFilterTableModel", 1, 0, "SortFilterTableModel"⟩,
    ⟨"TableModel", 1, 0, "TableModel"⟩,
    ⟨"TableModelColumn", 1, 0, "TableModelColumn"⟩,
    ⟨"Launcher", 0, 1, "Launcher"⟩,
    ⟨"Thread", 0, 1, "Thread"⟩,
    ⟨"FileWriter", 0, 1, "FileWriter"⟩,
    ⟨"Clipboard", 1, 0, "Clipboard"⟩,
    ⟨"ConnectionUtils", 1, 0, "ConnectionUtils"⟩,
    ⟨"FileUtils", 1, 0, "FileUtils"⟩,
    ⟨"SettingsUtils", 1, 0, "SettingsUtils"⟩,
    ⟨"QtAVPlayerUtils", 1, 0, "QtAVPlayerUtils"⟩ ]

/-! ## Names for the parts of a run, used in the proofs -/

namespace QCommandLineParser

/-- The parser after a defined name was found. -/
def found (d : QCommandLineParser) (n : String) : QCommandLineParser :=
  { d with optionNames := d.optionNames ++ [n] }

/-- The parser after an undefined name was met. -/
def unknown (d : QCommandLineParser) (n : String) : QCommandLineParser :=
  { d with unknownOptionNames := d.unknownOptionNames ++ [n] }

end QCommandLineParser

/-- The steps of lines 25 to 52, in order. -/
def stepsBeforePath : List Step :=
  (registerMetaTypes (registerTypes (Process.start none ⟨[]⟩))).trace

/-- The steps the reset block runs on a store with the given keys. -/
def resetSteps (isSet : Bool) (keys : List String) : List Step :=
  if isSet then Step.qDebug ["resetting settings..."] :: keys.map Step.settingsRemove else []

/-- The steps the logging block runs. -/
def loggingSteps (isSet : Bool) : List Step :=
  if isSet then [Step.qDebug ["enable file logging..."], Step.loggingEnable] else []

/-- The state of the run just before `parser.process` (line 88). -/
def beforeFlags (platform : Platform) (applicationDirPath : String) (envPATH : Option String)
    (settings : QSettings) : Process :=
  setIdentity (augmentPath platform applicationDirPath
    (registerMetaTypes (registerTypes (Process.start envPATH settings))))

/-- The value of `PATH` after the platform block of lines 54 to 73. -/
def pathAfterAugment (platform : Platform) (D : String) (envPATH : Option String) :
    Option String :=
  (augmentPath platform D (Process.start envPATH ⟨[]⟩)).envPATH

/-- The steps of the platform block of lines 54 to 73. -/
def pathSteps (platform : Platform) (D : String) (envPATH : Option String) : List Step :=
  (augmentPath platform D (Process.start envPATH ⟨[]⟩)).trace

/-- The steps of lines 75 to 77. -/
def identitySteps : List Step :=
  (setIdentity (Process.start none ⟨[]⟩)).trace

/-- The steps of lines 102 to 156, when `PATH` reads `path`. -/
def stepsAfterFlags (path : Option String) : List Step :=
  (loadUi (registerSingletons (Process.start path ⟨[]⟩))).trace

/-- The steps of lines 102 to 153, up to the load of the UI description. -/
def stepsBeforeLoad (path : Option String) : List Step :=
  (stepsAfterFlags path).takeWhile fun s => !s.isEngineLoad

/-- The capabilities `main` registers, in order: the fifteen types of lines
27 to 41, then the five singletons of lines 105 to 143. -/
def mainCapabilities : List Capability :=
  registeredCapabilities (stepsBeforePath ++ stepsAfterFlags none)

/-! # Proofs -/

/-! ## Lemmas on the phases of `main` -/

theorem toNativeSeparators_windows_append (a b : String) :
    toNativeSeparators .windows (a ++ b) =
      toNativeSeparators .windows a ++ toNativeSeparators .windows b := by
  apply String.ext
  simp [toNativeSeparators, String.data_append]

theorem foldl_settingsRemove (keys : List String) (p : Process) :
    keys.foldl (fun p key => p.settingsRemove key) p =
      { envPATH := p.envPATH, settings := keys.foldl QSettings.remove p.settings,
        logging := p.logging, trace := p.trace ++ keys.map Step.settingsRemove } := by
  induction keys generalizing p with
  | nil => simp
  | cons k ks ih =>
    simp only [List.foldl_cons]
    rw [ih]
    simp [Process.settingsRemove]

theorem registerMetaTypes_registerTypes (envPATH : Option String) (settings : QSettings) :
    registerMetaTypes (registerTypes (Process.start envPATH settings)) =
      { envPATH := envPATH, settings := settings, logging := some Logging.create,
        trace := stepsBeforePath } := by
  simp [registerMetaTypes, registerTypes, Process.start, Process.emit, Process.constructLogging,
    stepsBeforePath]

theorem handleFlags_exit (arguments : List String) (p : Process)
    (h : parser.process arguments = none) :
    handleFlags arguments p = .exitFailure (p.emit (.parserProcess arguments)) := by
  simp [handleFlags, h]

theorem handleFlags_running (arguments : List String) (p : Process) (parsed : QCommandLineParser)
    (h : parser.process arguments = some parsed) :
    handleFlags arguments p = .running
      { envPATH := p.envPATH,
        settings := if parsed.isSet resetSettingsOption then
          p.settings.allKeys.foldl QSettings.remove p.settings else p.settings,
        logging := if parsed.isSet enableLoggingOption then p.logging.map Logging.enable
          else p.logging,
        trace := p.trace ++ [Step.parserProcess arguments] ++
          resetSteps (parsed.isSet resetSettingsOption) p.settings.allKeys ++
          loggingSteps (parsed.isSet enableLoggingOption) } := by
  simp only [handleFlags, h, foldl_settingsRemove, resetSteps, loggingSteps]
  cases parsed.isSet resetSettingsOption <;> cases parsed.isSet enableLoggingOption <;>
    simp [Process.emit, Process.loggingEnable]

theorem mainThroughFlags_eq (platform : Platform) (D : String) (arguments : List String)
    (envPATH : Option String) (settings : QSettings) :
    mainThroughFlags platform D arguments envPATH settings =
      handleFlags arguments (beforeFlags platform D envPATH settings) := rfl

theorem beforeFlags_settings (platform : Platform) (D : String) (envPATH : Option String)
    (settings : QSettings) : (beforeFlags platform D envPATH settings).settings = settings := by
  rw [beforeFlags, registerMetaTypes_registerTypes]
  cases platform <;> rfl

theorem beforeFlags_logging (platform : Platform) (D : String) (envPATH : Option String)
    (settings : QSettings) :
    (beforeFlags platform D envPATH settings).logging = some Logging.create := by
  rw [beforeFlags, registerMetaTypes_registerTypes]
  cases platform <;> rfl

theorem beforeFlags_envPATH (platform : Platform) (D : String) (envPATH : Option String)
    (settings : QSettings) :
    (beforeFlags platform D envPATH settings).envPATH = pathAfterAugment platform D envPATH := by
  rw [beforeFlags, registerMetaTypes_registerTypes]
  cases platform <;> rfl

theorem beforeFlags_trace (platform : Platform) (D : String) (envPATH : Option String)
    (settings : QSettings) :
    (beforeFlags platform D envPATH settings).trace =
      stepsBeforePath ++ pathSteps platform D envPATH ++ identitySteps := by
  rw [beforeFlags, registerMetaTypes_registerTypes]
  cases platform <;>
    simp [augmentPath, setIdentity, Process.emit, Process.qputenvPATH, Process.valuePATH,
      pathSteps, identitySteps, Process.start]

theorem loadUi_registerSingletons (p : Process) :
    loadUi (registerSingletons p) =
      { envPATH := p.envPATH, settings := p.settings, logging := p.logging,
        trace := p.trace ++ stepsAfterFlags p.envPATH } := by
  simp [loadUi, registerSingletons, Process.emit, stepsAfterFlags, Process.start,
    Process.valuePATH]

theorem main_of_rejected (platform : Platform) (D : String) (arguments : List String)
    (envPATH : Option String) (settings : QSettings)
    (h : parser.process arguments = none) :
    main platform D arguments envPATH settings =
      .exitFailure ((beforeFlags platform D envPATH settings).emit (.parserProcess arguments)) := by
  simp [main, mainThroughFlags_eq, handleFlags_exit _ _ h]

theorem main_of_accepted (platform : Platform) (D : String) (arguments : List String)
    (envPATH : Option String) (settings : QSettings) (parsed : QCommandLineParser)
    (h : parser.process arguments = some parsed) :
    main platform D arguments envPATH settings = .running
      { envPATH := pathAfterAugment platform D envPATH,
        settings := if parsed.isSet resetSettingsOption then
          settings.allKeys.foldl QSettings.remove settings else settings,
        logging := if parsed.isSet enableLoggingOption then some Logging.create.enable
          else some Logging.create,
        trace := stepsBeforePath ++ pathSteps platform D envPATH ++ identitySteps ++
          [Step.parserProcess arguments] ++
          resetSteps (parsed.isSet resetSettingsOption) settings.allKeys ++
          loggingSteps (parsed.isSet enableLoggingOption) ++
          stepsAfterFlags (pathAfterAugment platform D envPATH) } := by
  simp only [main, mainThroughFlags_eq, handleFlags_running _ _ _ h, loadUi_registerSingletons,
    beforeFlags_settings, beforeFlags_logging, beforeFlags_envPATH, beforeFlags_trace]
  simp

/-! ## The settings store after a reset -/

theorem mem_foldl_remove (keys : List String) (s : QSettings) (e : String × String)
    (h : e ∈ (keys.foldl QSettings.remove s).entries) : e ∈ s.entries ∧ e.1 ∉ keys := by
  induction keys generalizing s with
  | nil => simpa using h
  | cons k ks ih =>
    rw [List.foldl_cons] at h
    obtain ⟨hmem, hks⟩ := ih _ h
    unfold QSettings.remove at hmem
    split at hmem
    · simp at hmem
    · simp only [List.mem_filter, QSettings.isKeyOrChild, Bool.not_eq_true', Bool.or_eq_false_iff,
        beq_eq_false_iff_ne] at hmem
      refine ⟨hmem.1, ?_⟩
      simp only [List.mem_cons, not_or]
      exact ⟨hmem.2.1, hks⟩

theorem foldl_remove_allKeys (s : QSettings) :
    s.allKeys.foldl QSettings.remove s = { entries := [] } := by
  have h : (s.allKeys.foldl QSettings.remove s).entries = [] := by
    apply List.eq_nil_iff_forall_not_mem.mpr
    intro e he
    obtain ⟨hmem, hnot⟩ := mem_foldl_remove _ _ _ he
    exact hnot (List.mem_map_of_mem Prod.fst hmem)
  cases hs : s.allKeys.foldl QSettings.remove s with
  | mk entries => rw [hs] at h; simpa using h

/-! ## What the parser finds -/

namespace QCommandLineParser

theorem registerFoundOption_options (d : QCommandLineParser) (n : String) :
    (d.registerFoundOption n).2.commandLineOptionList = d.commandLineOptionList := by
  unfold registerFoundOption; split <;> rfl

theorem parseCompacted_cons_known (argument : String) (c : Char) (rest : List Char)
    (optionName : String) (error : Bool) (d : QCommandLineParser)
    (h : d.nameHash.contains (String.singleton c) = true) :
    parseCompacted argument (c :: rest) optionName error d =
      if rest.head? = some '=' then
        (error || !(d.found (String.singleton c)).parseOptionValue (String.singleton c) argument,
          d.found (String.singleton c))
      else parseCompacted argument rest (String.singleton c) error (d.found (String.singleton c)) := by
  simp only [parseCompacted, registerFoundOption, h, found, if_true]

theorem parseCompacted_cons_unknown (argument : String) (c : Char) (rest : List Char)
    (optionName : String) (error : Bool) (d : QCommandLineParser)
    (h : d.nameHash.contains (String.singleton c) = false) :
    parseCompacted argument (c :: rest) optionName error d =
      parseCompacted argument rest (String.singleton c) true (d.unknown (String.singleton c)) := by
  simp only [parseCompacted, registerFoundOption, h, unknown, if_false, Bool.false_eq_true]

theorem parseCompacted_options (argument : String) (body : List Char) (optionName : String)
    (error : Bool) (d : QCommandLineParser) :
    (parseCompacted argument body optionName error d).2.commandLineOptionList =
      d.commandLineOptionList := by
  induction body generalizing optionName error d with
  | nil => rfl
  | cons c rest ih =>
    cases h : d.nameHash.contains (String.singleton c) with
    | true =>
      rw [parseCompacted_cons_known _ _ _ _ _ _ h]
      split
      · rfl
      · rw [ih]; rfl
    | false =>
      rw [parseCompacted_cons_unknown _ _ _ _ _ _ h, ih]; rfl

theorem parseCompacted_error (argument : String) (body : List Char) (optionName : String)
    (d : QCommandLineParser) :
    (parseCompacted argument body optionName true d).1 = true := by
  induction body generalizing optionName d with
  | nil => rfl
  | cons c rest ih =>
    cases h : d.nameHash.contains (String.singleton c) with
    | true =>
      rw [parseCompacted_cons_known _ _ _ _ _ _ h]
      split
      · rfl
      · rw [ih]
    | false =>
      rw [parseCompacted_cons_unknown _ _ _ _ _ _ h, ih]

theorem nameHash_found (d : QCommandLineParser) (n : String) :
    (d.found n).nameHash = d.nameHash := rfl

theorem parseCompacted_ok (argument : String) (body : List Char) (optionName : String)
    (error : Bool) (d : QCommandLineParser) (hsub : ∀ c ∈ body, c ∈ argument.data)
    (h : (parseCompacted argument body optionName error d).1 = false) :
    error = false ∧
      (parseCompacted argument body optionName error d).2.optionNames =
        d.optionNames ++ body.map String.singleton := by
  induction body generalizing optionName error d with
  | nil =>
    simp only [parseCompacted, Bool.or_eq_false_iff] at h
    simp [parseCompacted, h.1]
  | cons c rest ih =>
    have hrest : ∀ c ∈ rest, c ∈ argument.data := fun x hx => hsub x (List.mem_cons_of_mem _ hx)
    cases hk : d.nameHash.contains (String.singleton c) with
    | true =>
      rw [parseCompacted_cons_known _ _ _ _ _ _ hk] at h ⊢
      split at h
      · rename_i heq
        exfalso
        have hmem : '=' ∈ argument.data := by
          apply hrest
          cases rest with
          | nil => simp at heq
          | cons x xs => simp at heq; simp [heq]
        simp [parseOptionValue, nameHash_found, hmem] at h
        exact h.2 (by simpa using hk)
      · rename_i hne
        rw [if_neg hne]
        obtain ⟨he, hn⟩ := ih _ _ _ hrest h
        refine ⟨he, ?_⟩
        rw [hn]; simp [found]
    | false =>
      rw [parseCompacted_cons_unknown _ _ _ _ _ _ hk] at h
      rw [parseCompacted_error] at h
      exact absurd h (by simp)

theorem parseLoop_options (args : List String) (fp error : Bool) (d : QCommandLineParser) :
    (parseLoop args fp error d).2.commandLineOptionList = d.commandLineOptionList := by
  induction args generalizing fp error d with
  | nil => rfl
  | cons a rest ih =>
    cases fp with
    | true => rw [parseLoop, ih]
    | false =>
      rw [parseLoop]
      split
      · rw [ih]
      · simp only []
        split
        · rename_i heq
          rw [ih]
          have := registerFoundOption_options d (String.mk (List.takeWhile (fun c => c != '=') ‹List Char›))
          rw [heq] at this
          exact this
        · rename_i heq
          rw [ih]
          have := registerFoundOption_options d (String.mk (List.takeWhile (fun c => c != '=') ‹List Char›))
          rw [heq] at this
          exact this
      · rw [ih]
      · split
        rename_i heq
        rw [ih]
        have := parseCompacted_options a ‹List Char› "" error d
        rw [heq] at this
        exact this
      · rw [ih]

end QCommandLineParser

theorem spellsOption_long (ns : List String) (a : String) (body : List Char)
    (h : a.data = '-' :: '-' :: body) : spellsOption ns a = ns.contains (String.mk body) := by
  simp [spellsOption, h]

theorem spellsOption_group (ns : List String) (a : String) (body : List Char)
    (h : a.data = '-' :: body) (hn : ∀ b, a.data = '-' :: '-' :: b → False) :
    spellsOption ns a = body.any fun c => ns.contains (String.singleton c) := by
  unfold spellsOption
  split
  · rename_i b heq; exact absurd heq (fun x => hn b x)
  · rename_i b _ heq; rw [h] at heq; simp at heq; rw [heq]
  · rename_i h1 h2; exact absurd h (h2 body)

theorem spellsOption_positional (ns : List String) (a : String)
    (hn : ∀ b, a.data = '-' :: b → False) : spellsOption ns a = false := by
  unfold spellsOption
  split
  · rename_i b heq; exact absurd heq (hn _)
  · rename_i b _ heq; exact absurd heq (hn _)
  · rfl

theorem ne_terminator (a : String) (h : a.data ≠ ['-', '-']) : (a != "--") = true := by
  simp only [bne_iff_ne, ne_eq]
  intro heq
  apply h
  rw [heq]

theorem any_takeWhile_cons (ns : List String) (a : String) (rest : List String)
    (h : (a != "--") = true) :
    ((a :: rest).takeWhile fun a => a != "--").any (spellsOption ns) =
      (spellsOption ns a || (rest.takeWhile fun a => a != "--").any (spellsOption ns)) := by
  rw [List.takeWhile_cons, if_pos h, List.any_cons]

namespace QCommandLineParser

theorem registerFoundOption_known (d : QCommandLineParser) (n : String)
    (h : d.nameHash.contains n = true) : d.registerFoundOption n = (true, d.found n) := by
  simp only [registerFoundOption, h, found, if_true]

theorem registerFoundOption_unknown (d : QCommandLineParser) (n : String)
    (h : d.nameHash.contains n = false) : d.registerFoundOption n = (false, d.unknown n) := by
  simp only [registerFoundOption, h, unknown, if_false, Bool.false_eq_true]

theorem any_map_singleton (ns : List String) (body : List Char) :
    (body.map String.singleton).any (fun n => ns.contains n) =
      body.any fun c => ns.contains (String.singleton c) := by
  induction body with
  | nil => rfl
  | cons c cs ih => simp only [List.map_cons, List.any_cons, ih]

theorem any_found (ns : List String) (d : QCommandLineParser) (n : String) :
    (d.found n).optionNames.any (fun x => ns.contains x) =
      (d.optionNames.any (fun x => ns.contains x) || ns.contains n) := by
  simp [found, List.any_append]

theorem parseLoop_ok (ns : List String) (args : List String) (fp error : Bool)
    (d : QCommandLineParser) (h : (parseLoop args fp error d).1 = false) :
    error = false ∧
      (parseLoop args fp error d).2.optionNames.any (fun n => ns.contains n) =
        (d.optionNames.any (fun n => ns.contains n) ||
          (!fp && (args.takeWhile fun a => a != "--").any (spellsOption ns))) := by
  induction args generalizing fp error d with
  | nil => cases fp <;> simpa [parseLoop] using h
  | cons a rest ih =>
    cases fp with
    | true =>
      rw [parseLoop] at h ⊢
      obtain ⟨he, hn⟩ := ih _ _ _ h
      exact ⟨he, by simpa using hn⟩
    | false =>
      rw [parseLoop] at h ⊢
      split at h
      · rename_i heq
        obtain ⟨he, hn⟩ := ih _ _ _ h
        have ha : a = "--" := by apply String.ext; rw [heq]
        refine ⟨he, ?_⟩
        rw [hn, ha]
        simp
      · rename_i body hnot heq
        have hne : (a != "--") = true := ne_terminator a (by rw [heq]; simpa using hnot)
        simp only [] at h ⊢
        cases hk : d.nameHash.contains (String.mk (body.takeWhile fun c => c != '=')) with
        | true =>
          rw [registerFoundOption_known _ _ hk] at h ⊢
          simp only [] at h ⊢
          obtain ⟨he, hn⟩ := ih _ _ _ h
          simp only [Bool.or_eq_false_iff, Bool.not_eq_false'] at he
          have hval : '=' ∉ a.data := by
            have h2 := he.2
            simp only [parseOptionValue, nameHash_found, hk, if_true] at h2
            simpa using h2
          have hbody : body.takeWhile (fun c => c != '=') = body := by
            apply List.takeWhile_eq_self_iff.mpr
            intro c hc
            simp only [bne_iff_ne, ne_eq]
            intro hceq
            apply hval
            rw [heq, ← hceq]
            simp [hc]
          refine ⟨he.1, ?_⟩
          rw [hn, any_found, hbody, any_takeWhile_cons ns a rest hne,
            spellsOption_long ns a body heq]
          simp [Bool.or_assoc]
        | false =>
          rw [registerFoundOption_unknown _ _ hk] at h
          have := (ih _ _ _ h).1
          simp at this
      · rename_i heq
        have hne : (a != "--") = true := ne_terminator a (by rw [heq]; simp)
        obtain ⟨he, hn⟩ := ih _ _ _ h
        refine ⟨he, ?_⟩
        have hsp : spellsOption ns a = false := by
          rw [spellsOption_group ns a [] heq (by intro b hb; rw [heq] at hb; simp at hb)]
          rfl
        rw [any_takeWhile_cons ns a rest hne, hsp]
        simpa using hn
      · rename_i body hnot1 hnot2 hnot3 heq
        have hne : (a != "--") = true :=
          ne_terminator a (by rw [heq]; intro hc; simp at hc; exact hnot1 hc)
        have hsub : ∀ c ∈ body, c ∈ a.data := by
          intro c hc; rw [heq]; exact List.mem_cons_of_mem _ hc
        simp only [] at h ⊢
        obtain ⟨he1, hn⟩ := ih _ _ _ h
        obtain ⟨he, hnames⟩ := parseCompacted_ok a body "" error d hsub he1
        refine ⟨he, ?_⟩
        rw [hn, hnames, any_takeWhile_cons ns a rest hne,
          spellsOption_group ns a body heq (fun b hb => hnot2 b (by rw [heq] at hb; simpa using hb))]
        rw [List.any_append, any_map_singleton]
        simp [Bool.or_assoc]
      · rename_i hnot1 hnot2 hnot3 hnot4
        have hne : (a != "--") = true := ne_terminator a hnot1
        obtain ⟨he, hn⟩ := ih _ _ _ h
        refine ⟨he, ?_⟩
        have hsp : spellsOption ns a = false := by
          apply spellsOption_positional
          intro b hb
          exact hnot4 b hb
        rw [any_takeWhile_cons ns a rest hne, hsp]
        simpa using hn

theorem nameHash_of_options (d1 d : QCommandLineParser)
    (h : d1.commandLineOptionList = d.commandLineOptionList) : d1.nameHash = d.nameHash := by
  simp [nameHash, h]

theorem parseLoop_error (args : List String) (fp : Bool) (d : QCommandLineParser) :
    (parseLoop args fp true d).1 = true := by
  by_contra h
  have h2 : (parseLoop args fp true d).1 = false := by simpa using h
  have := (parseLoop_ok [] args fp true d h2).1
  simp at this

theorem contains_or_any (l ns : List String) (a : String) (h : ns.contains a = true) :
    (l.contains a || l.any fun n => ns.contains n) = l.any fun n => ns.contains n := by
  cases hc : l.contains a with
  | false => simp
  | true =>
    have : (l.any fun n => ns.contains n) = true :=
      List.any_eq_true.mpr ⟨a, by simpa using hc, h⟩
    rw [this]; rfl

theorem isSet_resetSettingsOption (d : QCommandLineParser)
    (h : d.commandLineOptionList = parser.commandLineOptionList) :
    d.isSet resetSettingsOption =
      d.optionNames.any fun n => resetSettingsOption.names.contains n := by
  have ha : d.aliases "r" = ["r", "resetsettings"] := by
    simp only [aliases, h]; rfl
  simp only [isSet, resetSettingsOption, isSetName, ha]
  exact contains_or_any _ _ _ (by decide)

theorem isSet_enableLoggingOption (d : QCommandLineParser)
    (h : d.commandLineOptionList = parser.commandLineOptionList) :
    d.isSet enableLoggingOption =
      d.optionNames.any fun n => enableLoggingOption.names.contains n := by
  have ha : d.aliases "l" = ["l", "log"] := by
    simp only [aliases, h]; rfl
  simp only [isSet, enableLoggingOption, isSetName, ha]
  exact contains_or_any _ _ _ (by decide)

theorem process_eq_some (arguments : List String) (parsed : QCommandLineParser)
    (h : parser.process arguments = some parsed) :
    ∃ exe rest, arguments = exe :: rest ∧
      parseLoop rest false false
        { parser with optionNames := [], unknownOptionNames := [], positionalArgumentList := [] } =
        (false, parsed) := by
  cases arguments with
  | nil => simp [process, parse] at h
  | cons exe rest =>
    refine ⟨exe, rest, rfl, ?_⟩
    simp only [process, parse] at h
    split at h
    · rename_i d1 heq
      simp only [Option.some.injEq] at h
      subst h
      cases hp : parseLoop rest false false
          { parser with optionNames := [], unknownOptionNames := [], positionalArgumentList := [] } with
      | mk e d2 =>
        rw [hp] at heq
        simp only [Prod.mk.injEq, Bool.not_eq_true'] at heq
        rw [heq.1, heq.2]
    · simp at h

theorem process_isSet (arguments : List String) (parsed : QCommandLineParser)
    (h : parser.process arguments = some parsed) :
    parsed.isSet resetSettingsOption = containsFlag resetSettingsOption arguments ∧
      parsed.isSet enableLoggingOption = containsFlag enableLoggingOption arguments := by
  obtain ⟨exe, rest, rfl, hp⟩ := process_eq_some arguments parsed h
  have hopts : parsed.commandLineOptionList = parser.commandLineOptionList := by
    have := parseLoop_options rest false false
      { parser with optionNames := [], unknownOptionNames := [], positionalArgumentList := [] }
    rw [hp] at this
    exact this
  have hfst : (parseLoop rest false false
      { parser with optionNames := [], unknownOptionNames := [], positionalArgumentList := [] }).1 =
      false := by rw [hp]
  constructor
  · rw [isSet_resetSettingsOption parsed hopts]
    have := (parseLoop_ok resetSettingsOption.names rest false false _ hfst).2
    rw [hp] at this
    simpa [containsFlag, optionArguments] using this
  · rw [isSet_enableLoggingOption parsed hopts]
    have := (parseLoop_ok enableLoggingOption.names rest false false _ hfst).2
    rw [hp] at this
    simpa [containsFlag, optionArguments] using this

end QCommandLineParser

theorem unrecognizedIn_long (known : List String) (a : String) (body : List Char)
    (h : a.data = '-' :: '-' :: body) :
    unrecognizedIn known a = !known.contains (String.mk (body.takeWhile fun c => c != '=')) := by
  simp [unrecognizedIn, h]

theorem unrecognizedIn_group (known : List String) (a : String) (body : List Char)
    (h : a.data = '-' :: body) (hn : ∀ b, a.data = '-' :: '-' :: b → False) :
    unrecognizedIn known a = body.any fun c => !known.contains (String.singleton c) := by
  unfold unrecognizedIn
  split
  · rename_i b heq; exact absurd heq (fun x => hn b x)
  · rename_i b _ heq; rw [h] at heq; simp at heq; rw [heq]
  · rename_i h1 h2; exact absurd h (h2 body)

theorem unrecognizedIn_positional (known : List String) (a : String)
    (hn : ∀ b, a.data = '-' :: b → False) : unrecognizedIn known a = false := by
  unfold unrecognizedIn
  split
  · rename_i b heq; exact absurd heq (hn _)
  · rename_i b _ heq; exact absurd heq (hn _)
  · rfl

namespace QCommandLineParser

theorem parseCompacted_unrecognized (argument : String) (body : List Char) (optionName : String)
    (error : Bool) (d : QCommandLineParser) (hsub : ∀ c ∈ body, c ∈ argument.data)
    (h : (body.any fun c => !d.nameHash.contains (String.singleton c)) = true) :
    (parseCompacted argument body optionName error d).1 = true := by
  by_contra hc
  have hf : (parseCompacted argument body optionName error d).1 = false := by simpa using hc
  clear hc
  induction body generalizing optionName error d with
  | nil => simp at h
  | cons c rest ih =>
    have hrest : ∀ c ∈ rest, c ∈ argument.data := fun x hx => hsub x (List.mem_cons_of_mem _ hx)
    cases hk : d.nameHash.contains (String.singleton c) with
    | true =>
      have hok := parseCompacted_ok argument (c :: rest) optionName error d hsub hf
      rw [parseCompacted_cons_known _ _ _ _ _ _ hk] at hf
      split at hf
      · rename_i heq
        have hmem : '=' ∈ argument.data := by
          apply hrest
          cases rest with
          | nil => simp at heq
          | cons x xs => simp at heq; simp [heq]
        simp [parseOptionValue, nameHash_found, hmem] at hf
        exact hf.2 (by simpa using hk)
      · rw [List.any_cons, hk] at h
        exact ih _ _ _ hrest (by simpa using h) hf
    | false =>
      rw [parseCompacted_cons_unknown _ _ _ _ _ _ hk, parseCompacted_error] at hf
      exact absurd hf (by simp)

theorem parseLoop_unrecognized (args : List String) (error : Bool) (d : QCommandLineParser)
    (h : ((args.takeWhile fun a => a != "--").any (unrecognizedIn d.nameHash)) = true) :
    (parseLoop args false error d).1 = true := by
  induction args generalizing error d with
  | nil => simp at h
  | cons a rest ih =>
    rw [parseLoop]
    split
    · rename_i heq
      have ha : a = "--" := by apply String.ext; rw [heq]
      rw [ha] at h
      simp at h
    · rename_i body hnot heq
      have hne : (a != "--") = true := ne_terminator a (by rw [heq]; simpa using hnot)
      rw [List.takeWhile_cons, if_pos hne, List.any_cons, unrecognizedIn_long _ a body heq] at h
      simp only []
      cases hk : d.nameHash.contains (String.mk (body.takeWhile fun c => c != '=')) with
      | true =>
        rw [registerFoundOption_known _ _ hk]
        simp only []
        apply ih
        rw [nameHash_found]
        rw [hk] at h
        simpa using h
      | false =>
        rw [registerFoundOption_unknown _ _ hk]
        exact parseLoop_error _ _ _
    · rename_i heq
      have hne : (a != "--") = true := ne_terminator a (by rw [heq]; simp)
      rw [List.takeWhile_cons, if_pos hne, List.any_cons,
        unrecognizedIn_group _ a [] heq (by intro b hb; rw [heq] at hb; simp at hb)] at h
      apply ih
      simpa using h
    · rename_i body hnot1 hnot2 hnot3 heq
      have hne : (a != "--") = true :=
        ne_terminator a (by rw [heq]; intro hc; simp at hc; exact hnot1 hc)
      have hsub : ∀ c ∈ body, c ∈ a.data := by
        intro c hc; rw [heq]; exact List.mem_cons_of_mem _ hc
      rw [List.takeWhile_cons, if_pos hne, List.any_cons,
        unrecognizedIn_group _ a body heq
          (fun b hb => hnot2 b (by rw [heq] at hb; simpa using hb))] at h
      simp only []
      cases hu : (body.any fun c => !d.nameHash.contains (String.singleton c)) with
      | true =>
        rw [parseCompacted_unrecognized a body "" error d hsub hu]
        exact parseLoop_error _ _ _
      | false =>
        apply ih
        rw [nameHash_of_options _ d (parseCompacted_options a body "" error d)]
        rw [hu] at h
        simpa using h
    · rename_i hnot1 hnot2 hnot3 hnot4
      have hne : (a != "--") = true := ne_terminator a hnot1
      rw [List.takeWhile_cons, if_pos hne, List.any_cons,
        unrecognizedIn_positional _ a (fun b hb => hnot4 b hb)] at h
      apply ih
      simpa using h

theorem process_unrecognized (arguments : List String)
    (h : containsUnrecognizedFlag arguments = true) : parser.process arguments = none := by
  cases arguments with
  | nil => rfl
  | cons exe rest =>
    have hl := parseLoop_unrecognized rest false
      { parser with optionNames := [], unknownOptionNames := [], positionalArgumentList := [] }
      (by simpa [containsUnrecognizedFlag, optionArguments] using h)
    simp only [process, parse]
    cases hp : parseLoop rest false false
        { parser with optionNames := [], unknownOptionNames := [], positionalArgumentList := [] } with
    | mk e d2 =>
      rw [hp] at hl
      simp only [] at hl
      subst hl
      rfl

end QCommandLineParser

/-! ## The flags as they are written -/

theorem containsFlag_of_mem (option : QCommandLineOption) (arguments : List String)
    (a : String) (ha : a ∈ optionArguments arguments)
    (hs : spellsOption option.names a = true) : containsFlag option arguments = true :=
  List.any_eq_true.mpr ⟨a, ha, hs⟩

theorem containsFlag_resetSettingsOption_of_literal (arguments : List String)
    (h : "-r" ∈ optionArguments arguments ∨ "--resetsettings" ∈ optionArguments arguments) :
    containsFlag resetSettingsOption arguments = true := by
  rcases h with h | h
  · exact containsFlag_of_mem _ _ _ h (by decide)
  · exact containsFlag_of_mem _ _ _ h (by decide)

theorem containsFlag_enableLoggingOption_of_literal (arguments : List String)
    (h : "-l" ∈ optionArguments arguments ∨ "--log" ∈ optionArguments arguments) :
    containsFlag enableLoggingOption arguments = true := by
  rcases h with h | h
  · exact containsFlag_of_mem _ _ _ h (by decide)
  · exact containsFlag_of_mem _ _ _ h (by decide)

/-! ## Reading the trace of a run -/

theorem any_map_settingsRemove (f : Step → Bool) (hf : ∀ k, f (.settingsRemove k) = false)
    (keys : List String) : (keys.map Step.settingsRemove).any f = false := by
  induction keys with
  | nil => rfl
  | cons k ks ih => simp only [List.map_cons, List.any_cons, hf, ih, Bool.or_self]

theorem filterMap_map_settingsRemove {α : Type} (f : Step → Option α)
    (hf : ∀ k, f (.settingsRemove k) = none) (keys : List String) :
    (keys.map Step.settingsRemove).filterMap f = [] := by
  induction keys with
  | nil => rfl
  | cons k ks ih => simp only [List.map_cons, List.filterMap_cons, hf, ih]

theorem filter_map_settingsRemove (f : Step → Bool) (hf : ∀ k, f (.settingsRemove k) = false)
    (keys : List String) : (keys.map Step.settingsRemove).filter f = [] := by
  induction keys with
  | nil => rfl
  | cons k ks ih => simp only [List.map_cons, List.filter_cons, hf, ih]; rfl

theorem pathAfterAugment_windows (D : String) (envPATH : Option String) :
    pathAfterAugment .windows D envPATH =
      some (toNativeSeparators .windows (D ++ "/" ++ "cygwin/bin") ++ ";" ++
        toNativeSeparators .windows (D ++ "/" ++ "scripts") ++ ";" ++
        toNativeSeparators .windows (D ++ "/" ++ "tools") ++ ";" ++
        toNativeSeparators .windows D ++ ";" ++ envPATH.getD "") := rfl

theorem pathAfterAugment_mac (D : String) (envPATH : Option String) :
    pathAfterAugment .mac D envPATH =
      some (D ++ "/" ++ "../Helpers" ++ ":" ++ envPATH.getD "") := rfl

theorem pathAfterAugment_other (D : String) (envPATH : Option String) :
    pathAfterAugment .other D envPATH = envPATH := rfl

theorem main_envPATH (platform : Platform) (D : String) (arguments : List String)
    (envPATH : Option String) (settings : QSettings) :
    (main platform D arguments envPATH settings).process.envPATH =
      pathAfterAugment platform D envPATH := by
  cases h : parser.process arguments with
  | none => rw [main_of_rejected _ _ _ _ _ h]; exact beforeFlags_envPATH _ _ _ _
  | some parsed => rw [main_of_accepted _ _ _ _ _ _ h]; rfl

theorem pathSteps_subset_main (platform : Platform) (D : String) (arguments : List String)
    (envPATH : Option String) (settings : QSettings) (s : Step)
    (hs : s ∈ pathSteps platform D envPATH) :
    s ∈ (main platform D arguments envPATH settings).process.trace := by
  cases h : parser.process arguments with
  | none =>
    rw [main_of_rejected _ _ _ _ _ h]
    simp only [Outcome.process, Process.emit, beforeFlags_trace]
    simp [hs]
  | some parsed =>
    rw [main_of_accepted _ _ _ _ _ _ h]
    simp only [Outcome.process]
    simp [hs]

theorem stepsBeforePath_any_isPutenv : stepsBeforePath.any Step.isPutenv = false := by decide

theorem identitySteps_any_isPutenv : identitySteps.any Step.isPutenv = false := by decide

theorem stepsAfterFlags_any_isPutenv (path : Option String) :
    (stepsAfterFlags path).any Step.isPutenv = false := by
  simp [stepsAfterFlags, loadUi, registerSingletons, Process.emit, Process.start, Step.isPutenv]

theorem resetSteps_any (f : Step → Bool) (hd : ∀ items, f (.qDebug items) = false)
    (hf : ∀ k, f (.settingsRemove k) = false) (b : Bool) (keys : List String) :
    (resetSteps b keys).any f = false := by
  cases b
  · rfl
  · simp only [resetSteps, if_true, List.any_cons, hd, any_map_settingsRemove f hf, Bool.or_self]

theorem mainThroughFlags_of_accepted (platform : Platform) (D : String)
    (arguments : List String) (envPATH : Option String) (settings : QSettings)
    (parsed : QCommandLineParser) (h : parser.process arguments = some parsed) :
    ∃ q, mainThroughFlags platform D arguments envPATH settings = .running q ∧
      q.settings = (if parsed.isSet resetSettingsOption then
        settings.allKeys.foldl QSettings.remove settings else settings) ∧
      q.logging = (if parsed.isSet enableLoggingOption then some Logging.create.enable
        else some Logging.create) := by
  rw [mainThroughFlags_eq, handleFlags_running _ _ _ h]
  refine ⟨_, rfl, ?_, ?_⟩
  · simp only [beforeFlags_settings]
  · simp only [beforeFlags_logging]; rfl

theorem trace_any_isLoggingEnable (platform : Platform) (D : String) (envPATH : Option String)
    (b : Bool) (keys : List String) (arguments : List String) :
    (stepsBeforePath ++ pathSteps platform D envPATH ++ identitySteps ++
        [Step.parserProcess arguments] ++ resetSteps b keys ++ loggingSteps false ++
        stepsAfterFlags (pathAfterAugment platform D envPATH)).any Step.isLoggingEnable =
      false := by
  have h1 : stepsBeforePath.any Step.isLoggingEnable = false := by decide
  have h2 : (pathSteps platform D envPATH).any Step.isLoggingEnable = false := by
    cases platform <;> rfl
  have h3 : identitySteps.any Step.isLoggingEnable = false := by decide
  have h4 : (stepsAfterFlags (pathAfterAugment platform D envPATH)).any Step.isLoggingEnable
      = false := by
    simp [stepsAfterFlags, loadUi, registerSingletons, Process.emit, Process.start,
      Step.isLoggingEnable]
  simp only [List.any_append, h1, h2, h3, h4,
    resetSteps_any Step.isLoggingEnable (fun _ => rfl) (fun _ => rfl)]
  rfl

theorem registeredCapabilities_append (a b : List Step) :
    registeredCapabilities (a ++ b) = registeredCapabilities a ++ registeredCapabilities b := by
  simp [registeredCapabilities]

theorem registeredCapabilities_stepsAfterFlags (path : Option String) :
    registeredCapabilities (stepsAfterFlags path) = registeredCapabilities (stepsAfterFlags none) := by
  simp [stepsAfterFlags, loadUi, registerSingletons, Process.emit, Process.start,
    registeredCapabilities, Step.capability]

theorem registeredCapabilities_main (platform : Platform) (D : String) (arguments : List String)
    (envPATH : Option String) (settings : QSettings) (parsed : QCommandLineParser)
    (h : parser.process arguments = some parsed) :
    registeredCapabilities (main platform D arguments envPATH settings).process.trace =
      mainCapabilities := by
  rw [main_of_accepted _ _ _ _ _ _ h]
  simp only [Outcome.process, registeredCapabilities_append, mainCapabilities,
    registeredCapabilities_stepsAfterFlags (pathAfterAugment platform D envPATH)]
  have h2 : registeredCapabilities (pathSteps platform D envPATH) = [] := by
    cases platform <;> rfl
  have h3 : registeredCapabilities identitySteps = [] := by decide
  have h4 : ∀ b keys, registeredCapabilities (resetSteps b keys) = [] := by
    intro b keys
    cases b
    · rfl
    · simp only [resetSteps, if_true, registeredCapabilities, List.filterMap_cons,
        Step.capability]
      exact filterMap_map_settingsRemove _ (fun _ => rfl) keys
  have h5 : ∀ b, registeredCapabilities (loggingSteps b) = [] := by
    intro b; cases b <;> rfl
  rw [h2, h3, h4, h5]
  simp [registeredCapabilities, Step.capability]

theorem stepsAfterFlags_split (path : Option String) :
    stepsAfterFlags path = stepsBeforeLoad path ++ [Step.engineLoad mainQmlUrl, Step.appExec] := by
  simp [stepsAfterFlags, stepsBeforeLoad, loadUi, registerSingletons, Process.emit,
    Process.start, Step.isEngineLoad, List.takeWhile]

theorem filter_resetSteps (f : Step → Bool) (hd : ∀ items, f (.qDebug items) = false)
    (hf : ∀ k, f (.settingsRemove k) = false) (b : Bool) (keys : List String) :
    (resetSteps b keys).filter f = [] := by
  cases b
  · rfl
  · simp only [resetSteps, if_true, List.filter_cons, hd, filter_map_settingsRemove f hf]
    rfl

theorem prefix_counts (platform : Platform) (D : String) (envPATH path : Option String)
    (arguments : List String) (b1 b2 : Bool) (keys : List String) :
    ((stepsBeforePath ++ pathSteps platform D envPATH ++ identitySteps ++
        [Step.parserProcess arguments] ++ resetSteps b1 keys ++ loggingSteps b2 ++
        stepsBeforeLoad path).filter Step.isTypeRegistration).length = 15 ∧
      ((stepsBeforePath ++ pathSteps platform D envPATH ++ identitySteps ++
        [Step.parserProcess arguments] ++ resetSteps b1 keys ++ loggingSteps b2 ++
        stepsBeforeLoad path).filter Step.isSingletonRegistration).length = 5 ∧
      (stepsBeforePath ++ pathSteps platform D envPATH ++ identitySteps ++
        [Step.parserProcess arguments] ++ resetSteps b1 keys ++ loggingSteps b2 ++
        stepsBeforeLoad path).any Step.isEngineLoad = false := by
  have hp : ∀ f : Step → Bool, (∀ items, f (.qDebug items) = false) →
      (∀ n v, f (.qputenv n v) = false) → (pathSteps platform D envPATH).filter f = [] := by
    intro f h1 h2
    cases platform
    · simp [pathSteps, augmentPath, Process.qputenvPATH, Process.emit, Process.start, h1, h2]
    · simp [pathSteps, augmentPath, Process.qputenvPATH, Process.emit, Process.start, h1, h2]
    · rfl
  have hpa : (pathSteps platform D envPATH).any Step.isEngineLoad = false := by
    cases platform <;> rfl
  have hl : ∀ f : Step → Bool, (∀ items, f (.qDebug items) = false) →
      f .loggingEnable = false → (loggingSteps b2).filter f = [] := by
    intro f h1 h2
    cases b2
    · rfl
    · simp [loggingSteps, h1, h2]
  have hla : (loggingSteps b2).any Step.isEngineLoad = false := by cases b2 <;> rfl
  have hb1 : (stepsBeforeLoad path).filter Step.isTypeRegistration = [] := by
    simp [stepsBeforeLoad, stepsAfterFlags, loadUi, registerSingletons, Process.emit,
      Process.start, Step.isEngineLoad, List.takeWhile, Step.isTypeRegistration]
  have hb2 : ((stepsBeforeLoad path).filter Step.isSingletonRegistration).length = 5 := by
    simp [stepsBeforeLoad, stepsAfterFlags, loadUi, registerSingletons, Process.emit,
      Process.start, Step.isEngineLoad, List.takeWhile, Step.isSingletonRegistration]
  have hb3 : (stepsBeforeLoad path).any Step.isEngineLoad = false := by
    simp [stepsBeforeLoad, stepsAfterFlags, loadUi, registerSingletons, Process.emit,
      Process.start, Step.isEngineLoad, List.takeWhile]
  have ha1 : (stepsBeforePath.filter Step.isTypeRegistration).length = 15 := by decide
  have ha2 : stepsBeforePath.filter Step.isSingletonRegistration = [] := by decide
  have ha3 : stepsBeforePath.any Step.isEngineLoad = false := by decide
  have hi1 : identitySteps.filter Step.isTypeRegistration = [] := by decide
  have hi2 : identitySteps.filter Step.isSingletonRegistration = [] := by decide
  have hi3 : identitySteps.any Step.isEngineLoad = false := by decide
  refine ⟨?_, ?_, ?_⟩
  · simp only [List.filter_append, List.length_append, ha1, hi1, hb1,
      hp Step.isTypeRegistration (fun _ => rfl) (fun _ _ => rfl),
      hl Step.isTypeRegistration (fun _ => rfl) rfl,
      filter_resetSteps Step.isTypeRegistration (fun _ => rfl) (fun _ => rfl)]
    rfl
  · simp only [List.filter_append, List.length_append, ha2, hi2, hb2,
      hp Step.isSingletonRegistration (fun _ => rfl) (fun _ _ => rfl),
      hl Step.isSingletonRegistration (fun _ => rfl) rfl,
      filter_resetSteps Step.isSingletonRegistration (fun _ => rfl) (fun _ => rfl)]
    rfl
  · simp only [List.any_append, ha3, hi3, hb3, hpa, hla,
      resetSteps_any Step.isEngineLoad (fun _ => rfl) (fun _ => rfl)]
    rfl

/-! # The claims -/

/-- C1 as stated fails: the vector `-r --bogus` contains the reset flag, yet
the process exits inside `parser.process` (line 88) before the reset block of
lines 89 to 96 runs, and the store that held `theme=dark` still holds that
key, both at the exit of the run through the flags and at the exit of
`main`. -/
theorem reset_flag_with_rejected_vector_keeps_keys :
    containsFlag resetSettingsOption ["dvrescue", "-r", "--bogus"] = true ∧
      (∃ q, mainThroughFlags .other "/opt/dvrescue" ["dvrescue", "-r", "--bogus"]
          (some "/usr/bin") { entries := [("theme", "dark")] } = .exitFailure q ∧
        q.settings.allKeys = ["theme"]) ∧
      ∃ p, main .other "/opt/dvrescue" ["dvrescue", "-r", "--bogus"]
          (some "/usr/bin") { entries := [("theme", "dark")] } = .exitFailure p ∧
        p.settings.allKeys = ["theme"] ∧
        p.settings.allKeys.length ≠ 0 :=
  ⟨by decide, ⟨_, rfl, by decide⟩, _, rfl, by decide, by decide⟩

/-- C1 as amended: for every platform, executable directory, original `PATH`
and prior content of the settings store, and for every argument vector that
the parser accepts and that contains the reset flag (`-r` or
`--resetsettings`, spelled by an option argument), the run is still going
after the flag blocks and the settings store then holds zero keys; it still
holds zero keys when `main` enters the event loop. -/
theorem reset_flag_leaves_zero_keys (platform : Platform) (D : String)
    (arguments : List String) (envPATH : Option String) (settings : QSettings)
    (haccepted : (parser.process arguments).isSome = true)
    (hreset : containsFlag resetSettingsOption arguments = true) :
    (∃ q, mainThroughFlags platform D arguments envPATH settings = .running q ∧
        q.settings.allKeys.length = 0) ∧
      ∃ p, main platform D arguments envPATH settings = .running p ∧
        p.settings.allKeys.length = 0 := by
  obtain ⟨parsed, h⟩ := Option.isSome_iff_exists.mp haccepted
  have hset : parsed.isSet resetSettingsOption = true := by
    rw [(QCommandLineParser.process_isSet arguments parsed h).1, hreset]
  constructor
  · obtain ⟨q, hq, hs, _⟩ := mainThroughFlags_of_accepted platform D arguments envPATH settings parsed h
    refine ⟨q, hq, ?_⟩
    rw [hs, hset, if_pos rfl, foldl_remove_allKeys]
    rfl
  · refine ⟨_, main_of_accepted platform D arguments envPATH settings parsed h, ?_⟩
    simp only [hset, if_true, foldl_remove_allKeys]
    rfl

/-- C1 as amended, at a concrete input: a store holding only `theme=dark`, run with
`--resetsettings --log`, ends with zero keys. -/
theorem reset_flag_leaves_zero_keys_witness :
    (parser.process ["dvrescue", "--resetsettings", "--log"]).isSome = true ∧
      containsFlag resetSettingsOption ["dvrescue", "--resetsettings", "--log"] = true ∧
      ((∃ q, mainThroughFlags .other "/opt/dvrescue" ["dvrescue", "--resetsettings", "--log"]
            (some "/usr/bin") { entries := [("theme", "dark")] } = .running q ∧
          q.settings.allKeys.length = 0) ∧
        ∃ p, main .other "/opt/dvrescue" ["dvrescue", "--resetsettings", "--log"]
            (some "/usr/bin") { entries := [("theme", "dark")] } = .running p ∧
          p.settings.allKeys.length = 0) :=
  ⟨by decide, by decide,
    reset_flag_leaves_zero_keys .other "/opt/dvrescue" ["dvrescue", "--resetsettings", "--log"]
      (some "/usr/bin") { entries := [("theme", "dark")] } (by decide) (by decide)⟩

/-- C2: for every platform, executable directory, original `PATH` and
settings store, and for every argument vector the parser accepts, the
logging facility is in file-enabled mode after the flag blocks if and only
if the vector contains the log flag (`-l` or `--log`, spelled by an option
argument); the mode is the same when `main` enters the event loop; and when
the flag is absent the facility is in the console-only mode it was
constructed in and no step of the run calls `logging.enable()`. -/
theorem logging_file_enabled_iff_log_flag (platform : Platform) (D : String)
    (arguments : List String) (envPATH : Option String) (settings : QSettings)
    (haccepted : (parser.process arguments).isSome = true) :
    ∃ q p, mainThroughFlags platform D arguments envPATH settings = .running q ∧
      main platform D arguments envPATH settings = .running p ∧
      p.logging = q.logging ∧
      (q.logging = some { mode := .fileEnabled } ↔
        containsFlag enableLoggingOption arguments = true) ∧
      (containsFlag enableLoggingOption arguments = false →
        q.logging = some { mode := .consoleOnly } ∧ Step.loggingEnable ∉ p.trace) := by
  obtain ⟨parsed, h⟩ := Option.isSome_iff_exists.mp haccepted
  obtain ⟨q, hq, _, hl⟩ := mainThroughFlags_of_accepted platform D arguments envPATH settings parsed h
  have hset := (QCommandLineParser.process_isSet arguments parsed h).2
  refine ⟨q, _, hq, main_of_accepted platform D arguments envPATH settings parsed h, ?_, ?_, ?_⟩
  · rw [hl]
  · rw [hl, hset]
    cases containsFlag enableLoggingOption arguments <;> simp [Logging.create, Logging.enable]
  · intro hno
    rw [hset, hno] at hl
    refine ⟨by rw [hl]; rfl, ?_⟩
    intro hmem
    have hany := List.any_eq_true.mpr ⟨_, hmem, (rfl : Step.isLoggingEnable .loggingEnable = true)⟩
    simp only [hset, hno] at hany
    rw [trace_any_isLoggingEnable] at hany
    exact absurd hany (by simp)

/-- C2 at a concrete input: with `--log` the facility ends file-enabled. -/
theorem logging_file_enabled_iff_log_flag_witness :
    (parser.process ["dvrescue", "--log"]).isSome = true ∧
      ∃ q p, mainThroughFlags .mac "/Applications/dvrescue.app/Contents/MacOS"
          ["dvrescue", "--log"] (some "/usr/bin") { entries := [] } = .running q ∧
        main .mac "/Applications/dvrescue.app/Contents/MacOS"
          ["dvrescue", "--log"] (some "/usr/bin") { entries := [] } = .running p ∧
        p.logging = q.logging ∧
        (q.logging = some { mode := .fileEnabled } ↔
          containsFlag enableLoggingOption ["dvrescue", "--log"] = true) ∧
        (containsFlag enableLoggingOption ["dvrescue", "--log"] = false →
          q.logging = some { mode := .consoleOnly } ∧ Step.loggingEnable ∉ p.trace) :=
  ⟨by decide,
    logging_file_enabled_iff_log_flag .mac "/Applications/dvrescue.app/Contents/MacOS"
      ["dvrescue", "--log"] (some "/usr/bin") { entries := [] } (by decide)⟩

/-- C3: on Windows, for every executable directory `D` and every original
`PATH` value `P` (the empty text when `PATH` is unset), the `PATH` that
`main` writes is `D/cygwin/bin;D/scripts;D/tools;D;` followed by `P`
unchanged, each of the four directories in native-separator form; the
native form of `D/cygwin/bin` is the native form of `D` followed by
`\cygwin\bin`, and likewise for the others; the value is written by one
`qputenv` step of the run. This holds for every argument vector, accepted
or not. -/
theorem windows_path_is_four_directories_then_original (D : String) (arguments : List String)
    (envPATH : Option String) (settings : QSettings) :
    (main .windows D arguments envPATH settings).process.envPATH =
        some (toNativeSeparators .windows (D ++ "/cygwin/bin") ++ ";" ++
          toNativeSeparators .windows (D ++ "/scripts") ++ ";" ++
          toNativeSeparators .windows (D ++ "/tools") ++ ";" ++
          toNativeSeparators .windows D ++ ";" ++ envPATH.getD "") ∧
      toNativeSeparators .windows (D ++ "/cygwin/bin") =
        toNativeSeparators .windows D ++ "\\cygwin\\bin" ∧
      toNativeSeparators .windows (D ++ "/scripts") =
        toNativeSeparators .windows D ++ "\\scripts" ∧
      toNativeSeparators .windows (D ++ "/tools") =
        toNativeSeparators .windows D ++ "\\tools" ∧
      Step.qputenv "PATH"
          (toNativeSeparators .windows (D ++ "/cygwin/bin") ++ ";" ++
            toNativeSeparators .windows (D ++ "/scripts") ++ ";" ++
            toNativeSeparators .windows (D ++ "/tools") ++ ";" ++
            toNativeSeparators .windows D ++ ";" ++ envPATH.getD "") ∈
        (main .windows D arguments envPATH settings).process.trace := by
  have h1 : D ++ "/cygwin/bin" = D ++ "/" ++ "cygwin/bin" := by rw [String.append_assoc]; rfl
  have h2 : D ++ "/scripts" = D ++ "/" ++ "scripts" := by rw [String.append_assoc]; rfl
  have h3 : D ++ "/tools" = D ++ "/" ++ "tools" := by rw [String.append_assoc]; rfl
  refine ⟨?_, ?_, ?_, ?_, ?_⟩
  · rw [main_envPATH, pathAfterAugment_windows, h1, h2, h3]
  · rw [toNativeSeparators_windows_append]; rfl
  · rw [toNativeSeparators_windows_append]; rfl
  · rw [toNativeSeparators_windows_append]; rfl
  · apply pathSteps_subset_main
    rw [h1, h2, h3]
    simp [pathSteps, augmentPath, Process.qputenvPATH, Process.emit, Process.start,
      Process.valuePATH]

/-- C4: on macOS, for every executable directory `D` and every original
`PATH` value `P` (the empty text when `PATH` is unset), the `PATH` that
`main` writes is `D/../Helpers:` followed by `P` unchanged, that is
`D + "/../Helpers" + ":" + P`; the value is written by one `qputenv` step of
the run. This holds for every argument vector, accepted or not. -/
theorem mac_path_is_helpers_then_original (D : String) (arguments : List String)
    (envPATH : Option String) (settings : QSettings) :
    (main .mac D arguments envPATH settings).process.envPATH =
        some (D ++ "/../Helpers" ++ ":" ++ envPATH.getD "") ∧
      Step.qputenv "PATH" (D ++ "/../Helpers" ++ ":" ++ envPATH.getD "") ∈
        (main .mac D arguments envPATH settings).process.trace := by
  have h1 : D ++ "/../Helpers" = D ++ "/" ++ "../Helpers" := by rw [String.append_assoc]; rfl
  refine ⟨?_, ?_⟩
  · rw [main_envPATH, pathAfterAugment_mac, h1]
  · apply pathSteps_subset_main
    rw [h1]
    simp [pathSteps, augmentPath, Process.qputenvPATH, Process.emit, Process.start,
      Process.valuePATH, toNativeSeparators]

/-- C5: on a platform that is neither Windows nor macOS, for every
executable directory, argument vector, original `PATH` (set or unset) and
settings store, `PATH` at the end of the run of `main` is `PATH` as it was
at the start, and no step of the run writes an environment variable. -/
theorem other_platform_leaves_path_alone (D : String) (arguments : List String)
    (envPATH : Option String) (settings : QSettings) :
    (main .other D arguments envPATH settings).process.envPATH = envPATH ∧
      ∀ name value,
        Step.qputenv name value ∉ (main .other D arguments envPATH settings).process.trace := by
  refine ⟨by rw [main_envPATH, pathAfterAugment_other], ?_⟩
  have hany : (main .other D arguments envPATH settings).process.trace.any Step.isPutenv
      = false := by
    cases h : parser.process arguments with
    | none =>
      rw [main_of_rejected _ _ _ _ _ h]
      simp only [Outcome.process, Process.emit, beforeFlags_trace, List.any_append,
        stepsBeforePath_any_isPutenv, identitySteps_any_isPutenv]
      rfl
    | some parsed =>
      rw [main_of_accepted _ _ _ _ _ _ h]
      simp only [Outcome.process, List.any_append, stepsBeforePath_any_isPutenv,
        identitySteps_any_isPutenv, stepsAfterFlags_any_isPutenv,
        resetSteps_any Step.isPutenv (fun _ => rfl) (fun _ => rfl)]
      cases parsed.isSet enableLoggingOption <;> rfl
  intro name value hmem
  have := List.any_eq_true.mpr ⟨_, hmem, (rfl : Step.isPutenv (.qputenv name value) = true)⟩
  rw [hany] at this
  exact absurd this (by simp)

/-- C6: for every `objectCreated` notification `(obj, objUrl)` and every
state of the application, the callback `main` installs calls
`QCoreApplication::exit(-1)` if and only if `obj` is null and `objUrl` is
`qrc:/main.qml`; otherwise, and only otherwise, it leaves the application as
it was, asking for no exit. The URL the callback compares with is the one
`main` loads. -/
theorem failure_callback_exits_iff_main_object_absent (obj : QObjectPtr) (objUrl : QUrl)
    (app : QCoreApplication) :
    (objectCreatedCallback mainQmlUrl obj objUrl app = app.exit (-1) ↔
        (obj = none ∧ objUrl = { text := "qrc:/main.qml" })) ∧
      (objectCreatedCallback mainQmlUrl obj objUrl app = app ↔
        ¬ (obj = none ∧ objUrl = { text := "qrc:/main.qml" })) ∧
      ∀ p : Process, Step.connectObjectCreated mainQmlUrl ∈ (loadUi p).trace ∧
        Step.engineLoad mainQmlUrl ∈ (loadUi p).trace := by
  have hne : app.exit (-1) ≠ app := by
    intro h
    have := congrArg (fun a => a.exitCalls.length) h
    simp [QCoreApplication.exit] at this
  refine ⟨?_, ?_, ?_⟩
  · unfold objectCreatedCallback
    cases obj with
    | none =>
      by_cases hu : mainQmlUrl = objUrl
      · subst hu; simp [mainQmlUrl]
      · have hu2 : ¬ objUrl = mainQmlUrl := fun h => hu h.symm
        simp [hu, Ne.symm hne]
        exact hu2
    | some o => simp [Ne.symm hne]
  · unfold objectCreatedCallback
    cases obj with
    | none =>
      by_cases hu : mainQmlUrl = objUrl
      · subst hu; simp [mainQmlUrl, hne]
      · have hu2 : ¬ objUrl = mainQmlUrl := fun h => hu h.symm
        simp [hu]
        exact hu2
    | some o => simp
  · intro p
    simp [loadUi, Process.emit]

/-- C7 as stated fails: on Windows, run with the unrecognized flag `--bogus`,
the process exits inside `parser.process` with the settings store untouched,
but its `PATH` is no longer the `PATH` it started with. -/
theorem unrecognized_flag_exit_path_already_changed :
    containsUnrecognizedFlag ["dvrescue", "--bogus"] = true ∧
      ∃ p, main .windows "C:/dvrescue" ["dvrescue", "--bogus"] (some "C:\\Windows")
          { entries := [("theme", "dark")] } = .exitFailure p ∧
        p.settings = { entries := [("theme", "dark")] } ∧
        p.envPATH ≠ some "C:\\Windows" :=
  ⟨by decide, _, rfl, by decide, by decide⟩

/-- C7 as amended: for every argument vector containing an unrecognized flag,
on every platform, the process exits inside `parser.process`; at that point
the settings store is as it was at process start, the logging facility is in
the console-only mode it was constructed in, and no step so far removed a
setting or enabled file logging; `PATH` is as it was at process start on a
platform that is neither Windows nor macOS, while on Windows and macOS it
already holds the augmented value written before the flags are parsed. -/
theorem unrecognized_flag_exits_before_settings_and_logging (platform : Platform) (D : String)
    (arguments : List String) (envPATH : Option String) (settings : QSettings)
    (hflag : containsUnrecognizedFlag arguments = true) :
    ∃ p, main platform D arguments envPATH settings = .exitFailure p ∧
      p.settings = settings ∧
      p.logging = some { mode := .consoleOnly } ∧
      p.trace.any Step.isSettingsRemove = false ∧
      p.trace.any Step.isLoggingEnable = false ∧
      p.envPATH =
        (match platform with
          | .windows =>
            some (toNativeSeparators .windows (D ++ "/cygwin/bin") ++ ";" ++
              toNativeSeparators .windows (D ++ "/scripts") ++ ";" ++
              toNativeSeparators .windows (D ++ "/tools") ++ ";" ++
              toNativeSeparators .windows D ++ ";" ++ envPATH.getD "")
          | .mac => some (D ++ "/../Helpers" ++ ":" ++ envPATH.getD "")
          | .other => envPATH) := by
  have h := QCommandLineParser.process_unrecognized arguments hflag
  refine ⟨_, main_of_rejected platform D arguments envPATH settings h, ?_, ?_, ?_, ?_, ?_⟩
  · exact beforeFlags_settings _ _ _ _
  · exact beforeFlags_logging _ _ _ _
  · simp only [Process.emit, beforeFlags_trace, List.any_append]
    have h1 : stepsBeforePath.any Step.isSettingsRemove = false := by decide
    have h2 : (pathSteps platform D envPATH).any Step.isSettingsRemove = false := by
      cases platform <;> rfl
    have h3 : identitySteps.any Step.isSettingsRemove = false := by decide
    rw [h1, h2, h3]; rfl
  · simp only [Process.emit, beforeFlags_trace, List.any_append]
    have h1 : stepsBeforePath.any Step.isLoggingEnable = false := by decide
    have h2 : (pathSteps platform D envPATH).any Step.isLoggingEnable = false := by
      cases platform <;> rfl
    have h3 : identitySteps.any Step.isLoggingEnable = false := by decide
    rw [h1, h2, h3]; rfl
  · have hp := main_envPATH platform D arguments envPATH settings
    rw [main_of_rejected platform D arguments envPATH settings h] at hp
    simp only [Outcome.process] at hp
    rw [hp]
    cases platform
    · have h1 : D ++ "/cygwin/bin" = D ++ "/" ++ "cygwin/bin" := by
        rw [String.append_assoc]; rfl
      have h2 : D ++ "/scripts" = D ++ "/" ++ "scripts" := by rw [String.append_assoc]; rfl
      have h3 : D ++ "/tools" = D ++ "/" ++ "tools" := by rw [String.append_assoc]; rfl
      simp only [pathAfterAugment_windows, h1, h2, h3]
    · have h1 : D ++ "/../Helpers" = D ++ "/" ++ "../Helpers" := by
        rw [String.append_assoc]; rfl
      simp only [pathAfterAugment_mac, h1]
    · rfl

/-- C7 as amended, at a concrete input: macOS, run with `-x`. -/
theorem unrecognized_flag_exits_before_settings_and_logging_witness :
    containsUnrecognizedFlag ["dvrescue", "-x"] = true ∧
      ∃ p, main .mac "/Applications/dvrescue.app/Contents/MacOS" ["dvrescue", "-x"]
          (some "/usr/bin") { entries := [("theme", "dark")] } = .exitFailure p ∧
        p.settings = { entries := [("theme", "dark")] } ∧
        p.logging = some { mode := .consoleOnly } ∧
        p.trace.any Step.isSettingsRemove = false ∧
        p.trace.any Step.isLoggingEnable = false ∧
        p.envPATH = some ("/Applications/dvrescue.app/Contents/MacOS" ++ "/../Helpers" ++ ":" ++
          (some "/usr/bin").getD "") :=
  ⟨by decide,
    unrecognized_flag_exits_before_settings_and_logging .mac
      "/Applications/dvrescue.app/Contents/MacOS" ["dvrescue", "-x"] (some "/usr/bin")
      { entries := [("theme", "dark")] } (by decide)⟩

/-- C8 as stated fails: in a run with no flags, `MediaInfo` 1.0 is among the
capabilities `main` registers and is not on the spec's list, so the
registered set is not exactly the listed surface. -/
theorem registered_surface_is_not_the_listed_one :
    ¬ (∀ c : Capability,
        c ∈ registeredCapabilities
            (main .other "/opt/dvrescue" ["dvrescue"] (some "/usr/bin") { entries := [] }).process.trace ↔
          c ∈ specCapabilitySurface) := by
  intro h
  have hin : (⟨"MediaInfo", 1, 0, "MediaInfo"⟩ : Capability) ∈ registeredCapabilities
      (main .other "/opt/dvrescue" ["dvrescue"] (some "/usr/bin") { entries := [] }).process.trace := by
    decide
  have hout : (⟨"MediaInfo", 1, 0, "MediaInfo"⟩ : Capability) ∉ specCapabilitySurface := by
    decide
  exact hout ((h _).mp hin)

/-- C8 as amended: for every run that reaches the UI load (the parser accepts
the argument vector), the capabilities `main` registers are exactly those the
spec lists, at the listed versions, together with `MediaInfo` at 1.0: every
listed one is registered, and nothing else is except `MediaInfo`; there are
twenty registrations in all. -/
theorem registered_surface_is_listed_plus_mediaInfo (platform : Platform) (D : String)
    (arguments : List String) (envPATH : Option String) (settings : QSettings)
    (haccepted : (parser.process arguments).isSome = true) :
    (∀ c : Capability,
        c ∈ registeredCapabilities (main platform D arguments envPATH settings).process.trace ↔
          (c ∈ specCapabilitySurface ∨ c = ⟨"MediaInfo", 1, 0, "MediaInfo"⟩)) ∧
      (registeredCapabilities
        (main platform D arguments envPATH settings).process.trace).length = 20 := by
  obtain ⟨parsed, h⟩ := Option.isSome_iff_exists.mp haccepted
  rw [registeredCapabilities_main platform D arguments envPATH settings parsed h]
  constructor
  · intro c
    have h1 : ∀ x ∈ mainCapabilities,
        x ∈ specCapabilitySurface ++ [⟨"MediaInfo", 1, 0, "MediaInfo"⟩] := by decide
    have h2 : ∀ x ∈ specCapabilitySurface ++ [⟨"MediaInfo", 1, 0, "MediaInfo"⟩],
        x ∈ mainCapabilities := by decide
    constructor
    · intro hc
      have := h1 c hc
      simpa using this
    · intro hc
      exact h2 c (by simpa using hc)
  · decide

/-- C8 as amended, at a concrete input: Windows, run with `-r`. -/
theorem registered_surface_is_listed_plus_mediaInfo_witness :
    (parser.process ["dvrescue", "-r"]).isSome = true ∧
      (∀ c : Capability,
        c ∈ registeredCapabilities (main .windows "C:/dvrescue" ["dvrescue", "-r"]
            (some "C:\\Windows") { entries := [("theme", "dark")] }).process.trace ↔
          (c ∈ specCapabilitySurface ∨ c = ⟨"MediaInfo", 1, 0, "MediaInfo"⟩)) ∧
      (registeredCapabilities (main .windows "C:/dvrescue" ["dvrescue", "-r"]
        (some "C:\\Windows") { entries := [("theme", "dark")] }).process.trace).length = 20 :=
  ⟨by decide,
    registered_surface_is_listed_plus_mediaInfo .windows "C:/dvrescue" ["dvrescue", "-r"]
      (some "C:\\Windows") { entries := [("theme", "dark")] } (by decide)⟩

/-- C9: for every platform, executable directory, original `PATH` and
settings store, and for every argument vector on which startup reaches the UI
load (the parser accepts it), the trace of `main` splits at the one step
`engine.load(url)`: before it come all fifteen type registrations and all
five singleton registrations, and after it comes no registration step and no
further load. -/
theorem registrations_all_precede_ui_load (platform : Platform) (D : String)
    (arguments : List String) (envPATH : Option String) (settings : QSettings)
    (haccepted : (parser.process arguments).isSome = true) :
    ∃ p pre post, main platform D arguments envPATH settings = .running p ∧
      p.trace = pre ++ Step.engineLoad mainQmlUrl :: post ∧
      (pre.filter Step.isTypeRegistration).length = 15 ∧
      (pre.filter Step.isSingletonRegistration).length = 5 ∧
      pre.any Step.isEngineLoad = false ∧
      post.any Step.isRegistration = false ∧
      post.any Step.isEngineLoad = false := by
  obtain ⟨parsed, h⟩ := Option.isSome_iff_exists.mp haccepted
  obtain ⟨h1, h2, h3⟩ := prefix_counts platform D envPATH (pathAfterAugment platform D envPATH)
    arguments (parsed.isSet resetSettingsOption) (parsed.isSet enableLoggingOption)
    settings.allKeys
  refine ⟨_, _, [Step.appExec], main_of_accepted platform D arguments envPATH settings parsed h,
    ?_, h1, h2, h3, rfl, rfl⟩
  simp only [stepsAfterFlags_split, List.append_assoc]

/-- C9 at a concrete input: Windows, run with `-rl` on a store with two keys. -/
theorem registrations_all_precede_ui_load_witness :
    (parser.process ["dvrescue", "-rl"]).isSome = true ∧
      ∃ p pre post, main .windows "C:/dvrescue" ["dvrescue", "-rl"] (some "C:\\Windows")
          { entries := [("theme", "dark"), ("window/width", "800")] } = .running p ∧
        p.trace = pre ++ Step.engineLoad mainQmlUrl :: post ∧
        (pre.filter Step.isTypeRegistration).length = 15 ∧
        (pre.filter Step.isSingletonRegistration).length = 5 ∧
        pre.any Step.isEngineLoad = false ∧
        post.any Step.isRegistration = false ∧
        post.any Step.isEngineLoad = false :=
  ⟨by decide,
    registrations_all_precede_ui_load .windows "C:/dvrescue" ["dvrescue", "-rl"]
      (some "C:\\Windows") { entries := [("theme", "dark"), ("window/width", "800")] }
      (by decide)⟩

/-- C10 fails on the code: in a run with no flags the five singleton
registrations are as listed (exposed name, native type the registration is
declared under, class the factory constructs); `SettingsUtils` is declared
under `FileUtils` while its factory constructs a `SettingsUtils`. -/
theorem settingsUtils_singleton_declared_under_fileUtils :
    singletonRegistrations
        (main .other "/opt/dvrescue" ["dvrescue"] (some "/usr/bin") { entries := [] }).process.trace =
      [ ("Clipboard", "Clipboard", "Clipboard"),
        ("ConnectionUtils", "ConnectionUtils", "ConnectionUtils"),
        ("FileUtils", "FileUtils", "FileUtils"),
        ("SettingsUtils", "FileUtils", "SettingsUtils"),
        ("QtAVPlayerUtils", "QtAVPlayerUtils", "QtAVPlayerUtils") ] ∧
      "FileUtils" ≠ "SettingsUtils" := by
  decide

end DvRescue
